import Mathlib

/-!
Shallow embedding of the quiver-plot (affinity-field) rendering engine of
`sleap/gui/overlays/pafs.py`, together with theorems settling the frozen
claims about its specification.

Numeric values (Python floats / numpy arrays) are modelled as real numbers.
2-D and 3-D numpy arrays are modelled as total functions from indices to ℝ
with their shapes carried separately, matching the way the code only ever
reads in-range indices.  Python exceptions (`ValueError` from `math.log`,
`ZeroDivisionError`, numpy `IndexError`) are modelled with `Except`.
-/

noncomputable section

/-- Python exceptions that the translated code paths can raise. -/
inductive PyErr where
  | valueError
  | zeroDivisionError
  | indexError
deriving DecidableEq

/-- A frame array of shape `(h, w, d)`: the raw input to `MultiQuiverPlot`.
`d` is the channel dimension (`2·C` logical x/y component planes). -/
structure Frame where
  h : ℕ
  w : ℕ
  d : ℕ
  val : ℕ → ℕ → ℕ → ℝ

/-- Maximum of a list of reals, folding like `np.max` (0 for the empty list,
which the code never hits on a real frame). -/
def listMax : List ℝ → ℝ
  | [] => 0
  | a :: l => l.foldl max a

/-- Minimum of a list of reals, folding like `np.min`. -/
def listMin : List ℝ → ℝ
  | [] => 0
  | a :: l => l.foldl min a

/-- All entries of a frame, enumerated in C (row-major) order. -/
def frameVals (f : Frame) : List ℝ :=
  (List.range f.h).flatMap fun i =>
    (List.range f.w).flatMap fun j =>
      (List.range f.d).map fun k => f.val i j k

/-- `np.ptp(frame)`: peak-to-peak value range `max - min`. -/
def framePtp (f : Frame) : ℝ := listMax (frameVals f) - listMin (frameVals f)

/-- Lines 54-56 of `pafs.py`: if the data range is outside `[-1, 1]`
(`np.ptp(frame) > 4`), assume byte-encoded data and divide by 255. -/
def normalizeFrame (f : Frame) : Frame :=
  if 4 < framePtp f then ⟨f.h, f.w, f.d, fun i j k => f.val i j k / 255⟩ else f

/-- `np.stack((field_y, field_x), axis=-1)` (line 134): depth 0 holds the y
component, depth 1 the x component. -/
def stackYX (fy fx : ℕ → ℕ → ℝ) : ℕ → ℕ → ℕ → ℝ :=
  fun i j k => if k = 0 then fy i j else fx i j

/-- Reading `np.ravel(image)` of a C-contiguous `(·, w, 2)` array at a flat
element offset: element strides are `(w*2, 2, 1)`. -/
def ravelIdx (w : ℕ) (v : ℕ → ℕ → ℕ → ℝ) (n : ℕ) : ℝ :=
  v (n / (w * 2)) (n % (w * 2) / 2) (n % 2)

/-- `QuiverPlot._decimate` tile averaging (lines 193-218) for a C-contiguous
input of shape `(h, w, 2)`: `tiles[i, j, r, c, dep]` is read through
`as_strided` at flat offset `i·(B·s0) + j·(B·s1) + r·s0 + c·s1 + dep` with
element strides `s0 = w*2`, `s1 = 2`, and `np.mean` over axes `(2, 3)`
divides the tile sum by `B·B`. -/
def decimateTiles (w : ℕ) (v : ℕ → ℕ → ℕ → ℝ) (B : ℕ) : ℕ → ℕ → ℕ → ℝ :=
  fun i j dep =>
    (∑ r ∈ Finset.range B, ∑ c ∈ Finset.range B,
        ravelIdx w v (i * (B * (w * 2)) + j * (B * 2) + r * (w * 2) + c * 2 + dep))
      / ((B : ℝ) * B)

/-- `QuiverPlot._decimate` including the axis swap applied when the first
stride is smaller than the second (`w * 2 < 2`, i.e. only for `w = 0`). -/
def decimateOut (w : ℕ) (v : ℕ → ℕ → ℕ → ℝ) (B : ℕ) : ℕ → ℕ → ℕ → ℝ :=
  if w * 2 < 2 then fun i j dep => decimateTiles w v B j i dep
  else decimateTiles w v B

/-- The delta grid used by `_add_arrows` (lines 145-151): the tile-averaged
field when `decimation > 1`, the raw stacked field when `decimation == 1`. -/
def deltaOf (w : ℕ) (fy fx : ℕ → ℕ → ℝ) (B : ℕ) : ℕ → ℕ → ℕ → ℝ :=
  if 1 < B then decimateOut w (stackYX fy fx) B else stackYX fy fx

/-- Number of tile rows iterated by the glyph loop (`delta_yx.shape[0]`). -/
def nrowsOf (B h : ℕ) : ℕ := if 1 < B then h / B else h

/-- Number of tile columns iterated by the glyph loop (`delta_yx.shape[1]`). -/
def ncolsOf (B w : ℕ) : ℕ := if 1 < B then w / B else w

/-- Anchor coordinate of tile index `g` along one axis (lines 139-149): the
`mgrid` value `B·g` is multiplied by `1 / scale`, and afterwards the midpoint
shift `B // 2` is added when `decimation > 1`. -/
def locAt (B : ℕ) (s : ℝ) (g : ℕ) : ℝ :=
  ((B * g : ℕ) : ℝ) * (1 / s) + (if 1 < B then ((B / 2 : ℕ) : ℝ) else 0)

/-- The six points appended for tile `(y, x)` by the loop of `_add_arrows`
(lines 157-190): tail, head, wing 1, head, wing 2, head — or no points at all
when the vector length does not exceed `min_length`. -/
def tilePoints (fy fx : ℕ → ℕ → ℝ) (w B : ℕ) (s minLen : ℝ) (y x : ℕ) :
    List (ℝ × ℝ) :=
  let x1 := locAt B s x
  let y1 := locAt B s y
  let dy := deltaOf w fy fx B y x 0
  let dx := deltaOf w fy fx B y x 1
  let x2 := dx * (B : ℝ) + x1
  let y2 := dy * (B : ℝ) + y1
  let len := Real.sqrt (dx ^ 2 + dy ^ 2)
  let headSize := len / 4
  let ux := if len = 0 then 0 else dx / len
  let uy := if len = 0 then 0 else dy / len
  let p1x := x2 - ux * headSize - uy * headSize
  let p1y := y2 - uy * headSize + ux * headSize
  let p2x := x2 - ux * headSize + uy * headSize
  let p2y := y2 - uy * headSize - ux * headSize
  if minLen < len then
    [(x1, y1), (x2, y2), (p1x, p1y), (x2, y2), (p2x, p2y), (x2, y2)]
  else []

/-- `itertools.product(range n, range m)`: row-major enumeration of the tile
grid, `y` outer and `x` inner (lines 178-180). -/
def rowMajor (n m : ℕ) : List (ℕ × ℕ) :=
  (List.range n).flatMap fun y => (List.range m).map fun x => (y, x)

/-- The full point list built by `QuiverPlot._add_arrows`. -/
def quiverPoints (fy fx : ℕ → ℕ → ℝ) (h w B : ℕ) (s minLen : ℝ) :
    List (ℝ × ℝ) :=
  (rowMajor (nrowsOf B h) (ncolsOf B w)).flatMap fun p =>
    tilePoints fy fx w B s minLen p.1 p.2

/-- Pen width (line 115): `min(4, max(0.1, math.log(decimation, 20)))`. -/
def penWidth (B : ℤ) : ℝ := min 4 (max 0.1 (Real.log (B : ℝ) / Real.log 20))

/-- Python `int(...)` on a float: truncation toward zero. -/
def pyInt (x : ℝ) : ℤ := if x < 0 then ⌈x⌉ else ⌊x⌋

/-- Result of constructing one `QuiverPlot` child: its color, pen width,
bounding-rect extents `int(h / scale)`, `int(w / scale)`, and point list. -/
structure QuiverOut where
  color : List ℕ
  pen : ℝ
  rectH : ℤ
  rectW : ℤ
  points : List (ℝ × ℝ)
deriving Inhabited

/-- `QuiverPlot.__init__` (lines 99-128): `math.log(decimation, 20)` raises a
`ValueError` when `decimation ≤ 0`; `int(h / scale)` raises a
`ZeroDivisionError` when `scale == 0`; otherwise `_add_arrows` runs with the
default `min_length = 0.01`. -/
def quiverInit (fy fx : ℕ → ℕ → ℝ) (h w : ℕ) (color : List ℕ) (B : ℤ)
    (s : ℝ) : Except PyErr QuiverOut :=
  if B ≤ 0 then .error .valueError
  else if s = 0 then .error .zeroDivisionError
  else .ok ⟨color, penWidth B, pyInt ((h : ℝ) / s), pyInt ((w : ℝ) / s),
            quiverPoints fy fx h w B.toNat s (1 / 100)⟩

/-- numpy indexing `frame[..., idx]` along the last axis: a negative index is
offset by the axis length; an index outside `[0, d)` after that raises an
`IndexError`. -/
def npLastIndex (f : Frame) (idx : ℤ) : Except PyErr (ℕ → ℕ → ℝ) :=
  let eff := if idx < 0 then idx + (f.d : ℤ) else idx
  if 0 ≤ eff ∧ eff < (f.d : ℤ) then
    .ok fun i j => f.val i j eff.toNat
  else .error .indexError

/-- `h5_colors[channel % len(h5_colors)]` (line 64): Python `%` by zero raises
a `ZeroDivisionError`; otherwise the result is nonnegative and in range. -/
def paletteColor (palette : List (List ℕ)) (ch : ℤ) : Except PyErr (List ℕ) :=
  if (palette.length : ℤ) = 0 then .error .zeroDivisionError
  else .ok (palette.getD ((ch % (palette.length : ℤ)).toNat) [])

/-- One iteration of the channel loop of `MultiQuiverPlot.__init__`
(lines 62-73): channels failing `channel < d // 2` are skipped; otherwise the
color lookup, the two component slices, and the child construction happen in
that order and the child is appended. -/
def mqStep (palette : List (List ℕ)) (g : Frame) (B : ℤ) (s : ℝ)
    (acc : List QuiverOut) (ch : ℤ) : Except PyErr (List QuiverOut) :=
  if ch < ((g.d / 2 : ℕ) : ℤ) then do
    let c ← paletteColor palette ch
    let fx ← npLastIndex g (ch * 2)
    let fy ← npLastIndex g (ch * 2 + 1)
    let q ← quiverInit fy fx g.h g.w c B s
    pure (acc ++ [q])
  else pure acc

/-- `MultiQuiverPlot.__init__` (lines 39-73): range-normalize the frame,
build the channel list (`range(d // 2)` when `show` is `None`), then run the
channel loop. -/
def multiQuiverInit (palette : List (List ℕ)) (f : Frame)
    (sel : Option (List ℤ)) (B : ℤ) (s : ℝ) : Except PyErr (List QuiverOut) :=
  let g := normalizeFrame f
  let chans : List ℤ :=
    match sel with
    | none => (List.range (g.d / 2)).map Int.ofNat
    | some l => l
  List.foldlM (mqStep palette g B s) [] chans

/-- The `QuiverOut` produced for a valid nonnegative channel `ch` of the
(already normalized) frame `g` — what `mqStep` appends on its success path. -/
def childOf (palette : List (List ℕ)) (g : Frame) (B : ℤ) (s : ℝ)
    (ch : ℤ) : QuiverOut :=
  ⟨palette.getD ((ch % (palette.length : ℤ)).toNat) [],
   penWidth B, pyInt ((g.h : ℝ) / s), pyInt ((g.w : ℝ) / s),
   quiverPoints (fun i j => g.val i j (ch * 2 + 1).toNat)
     (fun i j => g.val i j (ch * 2).toNat) g.h g.w B.toNat s (1 / 100)⟩

/-- Modelled from the spec: the fixed color palette `h5_colors` is imported
by `pafs.py` from `sleap.gui.overlays.base`, which is not among the inspected
source files.  The spec only requires a fixed nonempty table of RGB triples
(three integers 0-255) indexed by `channel_index mod palette_size`; concrete
entries are immaterial to every claim. -/
def h5_colors : List (List ℕ) := [[255, 0, 0], [0, 255, 0], [0, 0, 255]]

/-- An all-zero frame of shape `(h, w, d)`, used for concrete instances. -/
def zeroFrame (h w d : ℕ) : Frame := ⟨h, w, d, fun _ _ _ => 0⟩

/-- `true` iff an `Except` computation succeeded. -/
def okB : Except PyErr (List QuiverOut) → Bool
  | .ok _ => true
  | .error _ => false

/-- The per-axis anchor formula asserted by the spec (refinement comparison
definition, following the spec's words for claim C3): shift the tile corner
`B·i` by `B // 2` first, then divide the shifted anchor by the scale. -/
def specAnchor (B : ℕ) (s : ℝ) (i : ℕ) : ℝ := ((B * i + B / 2 : ℕ) : ℝ) / s

/-! ## Helper lemmas -/

lemma rowMajor_succ (n m : ℕ) :
    rowMajor (n + 1) m = rowMajor n m ++ (List.range m).map (fun x => (n, x)) := by
  unfold rowMajor
  rw [List.range_succ, List.flatMap_append]
  simp

lemma rowMajor_length (n m : ℕ) : (rowMajor n m).length = n * m := by
  induction n with
  | zero => simp [rowMajor]
  | succ k ih =>
    rw [rowMajor_succ, List.length_append, ih, List.length_map,
      List.length_range, Nat.succ_mul]

lemma rowMajor_getD (n m y x : ℕ) (hy : y < n) (hx : x < m) :
    (rowMajor n m).getD (y * m + x) (0, 0) = (y, x) := by
  induction n with
  | zero => omega
  | succ k ih =>
    rw [rowMajor_succ, List.getD_eq_getElem?_getD, List.getElem?_append]
    rcases Nat.lt_succ_iff_lt_or_eq.mp hy with h | h
    · have hlt : y * m + x < (rowMajor k m).length := by
        rw [rowMajor_length]
        have h1 : (y + 1) * m ≤ k * m := Nat.mul_le_mul_right m h
        have h2 : y * m + x < (y + 1) * m := by rw [Nat.succ_mul]; omega
        exact Nat.lt_of_lt_of_le h2 h1
      rw [if_pos hlt, ← List.getD_eq_getElem?_getD]
      exact ih h
    · subst h
      have hlen : (rowMajor y m).length = y * m := rowMajor_length y m
      rw [if_neg (by omega)]
      have : y * m + x - (rowMajor y m).length = x := by omega
      rw [this, List.getElem?_map, List.getElem?_range hx]
      rfl

lemma ravelIdx_spec (v : ℕ → ℕ → ℕ → ℝ) (w a b dep : ℕ)
    (hb : b < w) (hdep : dep < 2) :
    ravelIdx w v (a * (w * 2) + (b * 2 + dep)) = v a b dep := by
  have hw2 : 0 < w * 2 := by omega
  have hrem : b * 2 + dep < w * 2 := by omega
  have e1 : (a * (w * 2) + (b * 2 + dep)) / (w * 2) = a := by
    rw [Nat.add_comm, Nat.add_mul_div_right _ _ hw2, Nat.div_eq_of_lt hrem,
      Nat.zero_add]
  have e2 : (a * (w * 2) + (b * 2 + dep)) % (w * 2) = b * 2 + dep := by
    rw [Nat.add_comm, Nat.add_mul_mod_self_right, Nat.mod_eq_of_lt hrem]
  have e3 : (a * (w * 2) + (b * 2 + dep)) % 2 = dep := by
    have e : a * (w * 2) + (b * 2 + dep) = dep + (a * w + b) * 2 := by ring
    rw [e, Nat.add_mul_mod_self_right, Nat.mod_eq_of_lt hdep]
  have e4 : (b * 2 + dep) / 2 = b := by omega
  unfold ravelIdx
  rw [e1, e2, e3, e4]

lemma decimateTiles_mean (v : ℕ → ℕ → ℕ → ℝ) (w B i j dep : ℕ)
    (hj : j < w / B) (hdep : dep < 2) :
    decimateTiles w v B i j dep
      = (∑ r ∈ Finset.range B, ∑ c ∈ Finset.range B,
          v (B * i + r) (B * j + c) dep) / ((B : ℝ) * B) := by
  unfold decimateTiles
  congr 1
  apply Finset.sum_congr rfl
  intro r _
  apply Finset.sum_congr rfl
  intro c hc
  have hcB : c < B := Finset.mem_range.mp hc
  have hbw : B * j + c < w := by
    have h1 : B * j + c < B * (j + 1) := by
      rw [Nat.mul_succ]; exact Nat.add_lt_add_left hcB _
    have h2 : B * (j + 1) ≤ B * (w / B) :=
      Nat.mul_le_mul_left B (Nat.succ_le_of_lt hj)
    have h3 : B * (w / B) ≤ w := by
      rw [Nat.mul_comm]; exact Nat.div_mul_le_self w B
    omega
  have e : i * (B * (w * 2)) + j * (B * 2) + r * (w * 2) + c * 2 + dep
      = (B * i + r) * (w * 2) + ((B * j + c) * 2 + dep) := by ring
  rw [e, ravelIdx_spec v w _ _ _ hbw hdep]

lemma decimateTiles_zero (w B : ℕ) (v : ℕ → ℕ → ℕ → ℝ)
    (hv : ∀ i j k, v i j k = 0) (i j dep : ℕ) :
    decimateTiles w v B i j dep = 0 := by
  unfold decimateTiles ravelIdx
  simp [hv]

lemma deltaOf_zero (w B y x k : ℕ) (fy fx : ℕ → ℕ → ℝ)
    (hy : ∀ i j, fy i j = 0) (hx : ∀ i j, fx i j = 0) :
    deltaOf w fy fx B y x k = 0 := by
  have hst : ∀ i j k, stackYX fy fx i j k = 0 := by
    intro i j k
    unfold stackYX
    split
    · exact hy i j
    · exact hx i j
  unfold deltaOf
  split
  · unfold decimateOut
    split
    · exact decimateTiles_zero w B _ hst _ _ _
    · exact decimateTiles_zero w B _ hst _ _ _
  · exact hst _ _ _

lemma flatMap_nil_of {α β : Type} (l : List α) (f : α → List β)
    (hf : ∀ a, f a = []) : l.flatMap f = [] := by
  induction l with
  | nil => rfl
  | cons a t ih => rw [List.flatMap_cons, hf a, ih]; rfl

lemma exceptBind_ok {ε α β : Type} (a : α) (f : α → Except ε β) :
    (Except.ok a >>= f) = f a := rfl

lemma exceptBind_err {ε α β : Type} (e : ε) (f : α → Except ε β) :
    ((Except.error e : Except ε α) >>= f) = Except.error e := rfl

lemma normalizeFrame_d (f : Frame) : (normalizeFrame f).d = f.d := by
  unfold normalizeFrame
  split <;> rfl

lemma foldl_max_const : ∀ (t : List ℝ) (a : ℝ), (∀ x ∈ t, x = a) →
    t.foldl max a = a := by
  intro t
  induction t with
  | nil => intro a _; rfl
  | cons b t ih =>
    intro a hmem
    rw [List.foldl_cons, hmem b (by simp), max_self]
    exact ih a fun x hx => hmem x (by simp [hx])

lemma foldl_min_const : ∀ (t : List ℝ) (a : ℝ), (∀ x ∈ t, x = a) →
    t.foldl min a = a := by
  intro t
  induction t with
  | nil => intro a _; rfl
  | cons b t ih =>
    intro a hmem
    rw [List.foldl_cons, hmem b (by simp), min_self]
    exact ih a fun x hx => hmem x (by simp [hx])

lemma listMax_of_zero (l : List ℝ) (hl : ∀ a ∈ l, a = 0) : listMax l = 0 := by
  cases l with
  | nil => rfl
  | cons a t =>
    unfold listMax
    rw [hl a (by simp)]
    exact foldl_max_const t 0 fun x hx => hl x (by simp [hx])

lemma listMin_of_zero (l : List ℝ) (hl : ∀ a ∈ l, a = 0) : listMin l = 0 := by
  cases l with
  | nil => rfl
  | cons a t =>
    unfold listMin
    rw [hl a (by simp)]
    exact foldl_min_const t 0 fun x hx => hl x (by simp [hx])

lemma normalizeFrame_zero (h w d : ℕ) :
    normalizeFrame (zeroFrame h w d) = zeroFrame h w d := by
  have hv : ∀ a ∈ frameVals (zeroFrame h w d), a = 0 := by
    intro a ha
    simp only [frameVals, zeroFrame, List.mem_flatMap, List.mem_map] at ha
    obtain ⟨i, _, j, _, k, _, hk⟩ := ha
    exact hk.symm
  unfold normalizeFrame
  rw [if_neg]
  unfold framePtp
  rw [listMax_of_zero _ hv, listMin_of_zero _ hv]
  norm_num

lemma paletteColor_ok (palette : List (List ℕ)) (ch : ℤ) (hp : palette ≠ []) :
    paletteColor palette ch
      = .ok (palette.getD ((ch % (palette.length : ℤ)).toNat) []) := by
  have hl : palette.length ≠ 0 := fun hEq => hp (List.length_eq_zero.mp hEq)
  unfold paletteColor
  rw [if_neg (by exact_mod_cast hl)]

lemma npLastIndex_nonneg (g : Frame) (k : ℤ) (h0 : 0 ≤ k)
    (hk : k < (g.d : ℤ)) :
    npLastIndex g k = .ok fun i j => g.val i j k.toNat := by
  simp only [npLastIndex]
  rw [if_neg (by omega : ¬ k < 0), if_pos ⟨h0, hk⟩]

lemma quiverInit_ok (B : ℤ) (s : ℝ) (hB : 1 ≤ B) (hs : s ≠ 0)
    (fy fx : ℕ → ℕ → ℝ) (h w : ℕ) (color : List ℕ) :
    quiverInit fy fx h w color B s
      = .ok ⟨color, penWidth B, pyInt ((h : ℝ) / s), pyInt ((w : ℝ) / s),
             quiverPoints fy fx h w B.toNat s (1 / 100)⟩ := by
  unfold quiverInit
  rw [if_neg (by omega), if_neg hs]

lemma quiverInit_errVal (B : ℤ) (s : ℝ) (hB : B ≤ 0)
    (fy fx : ℕ → ℕ → ℝ) (h w : ℕ) (color : List ℕ) :
    quiverInit fy fx h w color B s = .error .valueError := by
  unfold quiverInit
  rw [if_pos hB]

lemma quiverInit_errZero (B : ℤ) (s : ℝ) (hB : 1 ≤ B) (hs : s = 0)
    (fy fx : ℕ → ℕ → ℝ) (h w : ℕ) (color : List ℕ) :
    quiverInit fy fx h w color B s = .error .zeroDivisionError := by
  unfold quiverInit
  rw [if_neg (by omega), if_pos hs]

lemma mqStep_ok (palette : List (List ℕ)) (g : Frame) (B : ℤ) (s : ℝ)
    (acc : List QuiverOut) (ch : ℤ) (hp : palette ≠ []) (h0 : 0 ≤ ch)
    (hch : ch < ((g.d / 2 : ℕ) : ℤ)) (hB : 1 ≤ B) (hs : s ≠ 0) :
    mqStep palette g B s acc ch
      = .ok (acc ++ [childOf palette g B s ch]) := by
  unfold mqStep
  rw [if_pos hch]
  have efx := npLastIndex_nonneg g (ch * 2) (by omega) (by omega)
  have efy := npLastIndex_nonneg g (ch * 2 + 1) (by omega) (by omega)
  simp only [paletteColor_ok palette ch hp, efx, efy, quiverInit_ok B s hB hs,
    exceptBind_ok]
  rfl

lemma mqStep_errVal (palette : List (List ℕ)) (g : Frame) (B : ℤ) (s : ℝ)
    (acc : List QuiverOut) (ch : ℤ) (hp : palette ≠ []) (h0 : 0 ≤ ch)
    (hch : ch < ((g.d / 2 : ℕ) : ℤ)) (hB : B ≤ 0) :
    mqStep palette g B s acc ch = .error .valueError := by
  unfold mqStep
  rw [if_pos hch]
  have efx := npLastIndex_nonneg g (ch * 2) (by omega) (by omega)
  have efy := npLastIndex_nonneg g (ch * 2 + 1) (by omega) (by omega)
  simp only [paletteColor_ok palette ch hp, efx, efy, quiverInit_errVal B s hB,
    exceptBind_ok, exceptBind_err]

lemma mqStep_errZero (palette : List (List ℕ)) (g : Frame) (B : ℤ) (s : ℝ)
    (acc : List QuiverOut) (ch : ℤ) (hp : palette ≠ []) (h0 : 0 ≤ ch)
    (hch : ch < ((g.d / 2 : ℕ) : ℤ)) (hB : 1 ≤ B) (hs : s = 0) :
    mqStep palette g B s acc ch = .error .zeroDivisionError := by
  unfold mqStep
  rw [if_pos hch]
  have efx := npLastIndex_nonneg g (ch * 2) (by omega) (by omega)
  have efy := npLastIndex_nonneg g (ch * 2 + 1) (by omega) (by omega)
  simp only [paletteColor_ok palette ch hp, efx, efy,
    quiverInit_errZero B s hB hs, exceptBind_ok, exceptBind_err]

lemma mqFold_ok (palette : List (List ℕ)) (g : Frame) (B : ℤ) (s : ℝ)
    (hp : palette ≠ []) (hB : 1 ≤ B) (hs : s ≠ 0) :
    ∀ (l : List ℤ) (acc : List QuiverOut),
      (∀ ch ∈ l, 0 ≤ ch ∧ ch < ((g.d / 2 : ℕ) : ℤ)) →
      List.foldlM (mqStep palette g B s) acc l
        = .ok (acc ++ l.map (childOf palette g B s)) := by
  intro l
  induction l with
  | nil =>
    intro acc _
    simp only [List.foldlM_nil, List.map_nil, List.append_nil]
    rfl
  | cons ch t ih =>
    intro acc hmem
    rw [List.foldlM_cons,
      mqStep_ok palette g B s acc ch hp (hmem ch (by simp)).1
        (hmem ch (by simp)).2 hB hs]
    rw [exceptBind_ok, ih _ fun c hc => hmem c (by simp [hc])]
    simp

lemma multi_some_ok (palette : List (List ℕ)) (f : Frame) (l : List ℤ)
    (B : ℤ) (s : ℝ) (hp : palette ≠ []) (hB : 1 ≤ B) (hs : s ≠ 0)
    (hl : ∀ ch ∈ l, 0 ≤ ch ∧ ch < ((f.d / 2 : ℕ) : ℤ)) :
    multiQuiverInit palette f (some l) B s
      = .ok (l.map (childOf palette (normalizeFrame f) B s)) := by
  simp only [multiQuiverInit]
  rw [mqFold_ok palette (normalizeFrame f) B s hp hB hs l []
    (by rw [normalizeFrame_d]; exact hl)]
  rw [List.nil_append]

lemma multi_none_ok (palette : List (List ℕ)) (f : Frame) (B : ℤ) (s : ℝ)
    (hp : palette ≠ []) (hB : 1 ≤ B) (hs : s ≠ 0) :
    multiQuiverInit palette f none B s
      = .ok (((List.range ((normalizeFrame f).d / 2)).map Int.ofNat).map
          (childOf palette (normalizeFrame f) B s)) := by
  simp only [multiQuiverInit]
  rw [mqFold_ok palette (normalizeFrame f) B s hp hB hs _ [] ?_]
  · rw [List.nil_append]
  · intro ch hc
    simp only [List.mem_map, List.mem_range] at hc
    obtain ⟨a, ha, rfl⟩ := hc
    constructor <;> simp only [Int.ofNat_eq_natCast] <;> omega

/-! ## Claim theorems -/

/-! ## Claim theorems -/

/-- Claim C8 (confirmed): with decimation `B = 1` the delta grid is the raw
stacked field itself — each pixel's `(y, x)` components pass through
unchanged and the output grid has one cell per source pixel. -/
theorem C8_passthrough (fy fx : ℕ → ℕ → ℝ) (h w y x : ℕ) :
    deltaOf w fy fx 1 y x 0 = fy y x ∧ deltaOf w fy fx 1 y x 1 = fx y x
      ∧ nrowsOf 1 h = h ∧ ncolsOf 1 w = w := by
  refine ⟨?_, ?_, ?_, ?_⟩ <;> simp [deltaOf, stackYX, nrowsOf, ncolsOf]

/-- Claim C3 (counterexample): the claim's anchor formula
`(B·i + B // 2) / s` disagrees with the code at `B = 2`, `s = 2`, tile
index `i = 0`: the code reports `1`, the claim demands `1 / 2`, because the
code adds the `B // 2` shift after multiplying by `1 / s`. -/
theorem C3_cex : locAt 2 2 0 ≠ specAnchor 2 2 0 := by
  simp only [locAt, specAnchor]
  norm_num

/-- Claim C3 (amended): for `B > 1` the reported anchor is
`(B·i) / s + B // 2` — only the grid coordinate is divided by the scale, the
midpoint shift is added afterwards undivided; for `B = 1` the anchor is
`i / s` with no shift. -/
theorem C3_amended (B i : ℕ) (s : ℝ) (hB : 1 < B) :
    locAt B s i = ((B * i : ℕ) : ℝ) * (1 / s) + ((B / 2 : ℕ) : ℝ)
      ∧ locAt 1 s i = (i : ℝ) * (1 / s) := by
  constructor
  · simp [locAt, hB]
  · simp [locAt]

/-- Witness for `C3_amended` at `B = 2`, `i = 0`, `s = 2`. -/
theorem C3_amended_witness :
    locAt 2 2 0 = ((2 * 0 : ℕ) : ℝ) * (1 / 2) + ((2 / 2 : ℕ) : ℝ)
      ∧ locAt 1 2 0 = ((0 : ℕ) : ℝ) * (1 / 2) :=
  C3_amended 2 0 2 (by norm_num)

/-- Claim C1 (counterexample): the full pipeline is not scale invariant.
On the constant field `(dx, dy) = (3, 4)` of shape `1 × 1` with `B = 1`, the
point list at scale `2` (head `(3, 4)`) is not the point list at scale `1`
with every coordinate divided by `2` (head `(1.5, 2)`): the delta-derived
extent of each arrow is never divided by the scale. -/
theorem C1_cex :
    ¬ (quiverPoints (fun _ _ => 4) (fun _ _ => 3) 1 1 1 2 (1 / 100)
        = (quiverPoints (fun _ _ => 4) (fun _ _ => 3) 1 1 1 1 (1 / 100)).map
            (fun p => (p.1 / 2, p.2 / 2))) := by
  have hA : Real.sqrt 25 = 5 := by
    rw [show (25 : ℝ) = 5 ^ 2 by norm_num]
    exact Real.sqrt_sq (by norm_num)
  have hr1 : List.range 1 = [0] := rfl
  intro hEq
  norm_num [quiverPoints, rowMajor, nrowsOf, ncolsOf, tilePoints, deltaOf,
    stackYX, locAt, hr1, hA] at hEq

/-- Claim C1 (amended): the scale divides only the grid-anchor contribution
of every emitted coordinate.  For each tile `(y, x)`, the six glyph points at
scale `s` equal the points at scale `1` with the tile's grid coordinates
`B·x`, `B·y` replaced by `B·x / s`, `B·y / s`; the delta-derived extents, the
wing offsets and the `B // 2` midpoint shift are unchanged, and the same
tiles are emitted at every scale. -/
theorem C1_amended (fy fx : ℕ → ℕ → ℝ) (w B : ℕ) (s m : ℝ) (y x : ℕ) :
    tilePoints fy fx w B s m y x
      = (tilePoints fy fx w B 1 m y x).map
          (fun p => (p.1 - ((B * x : ℕ) : ℝ) + ((B * x : ℕ) : ℝ) * (1 / s),
                     p.2 - ((B * y : ℕ) : ℝ) + ((B * y : ℕ) : ℝ) * (1 / s))) := by
  simp only [tilePoints, locAt]
  by_cases hc : m < Real.sqrt
      (deltaOf w fy fx B y x 1 ^ 2 + deltaOf w fy fx B y x 0 ^ 2)
  · rw [if_pos hc, if_pos hc]
    simp only [List.map_cons, List.map_nil, List.cons.injEq, Prod.mk.injEq,
      and_true]
    repeat' apply And.intro
    all_goals ring
  · rw [if_neg hc, if_neg hc]
    simp

/-- Claim C10 (confirmed): the point list is the row-major concatenation
(`y` outer, `x` inner) of the per-tile point lists over the decimated grid,
position `y·ncols + x` of the row-major enumeration is tile `(y, x)`, and
every emitted tile contributes exactly six points `[t, h, p1, h, p2, h]` —
three two-point segments all sharing the head point. -/
theorem C10_structure (fy fx : ℕ → ℕ → ℝ) (h w B : ℕ) (s m : ℝ) (y x : ℕ)
    (hy : y < nrowsOf B h) (hx : x < ncolsOf B w) :
    quiverPoints fy fx h w B s m
      = (rowMajor (nrowsOf B h) (ncolsOf B w)).flatMap
          (fun p => tilePoints fy fx w B s m p.1 p.2)
    ∧ (rowMajor (nrowsOf B h) (ncolsOf B w)).getD (y * ncolsOf B w + x) (0, 0)
        = (y, x)
    ∧ (tilePoints fy fx w B s m y x = []
        ∨ ∃ t hd p1 p2, tilePoints fy fx w B s m y x = [t, hd, p1, hd, p2, hd]) := by
  refine ⟨rfl, rowMajor_getD _ _ _ _ hy hx, ?_⟩
  simp only [tilePoints]
  by_cases hc : m < Real.sqrt
      (deltaOf w fy fx B y x 1 ^ 2 + deltaOf w fy fx B y x 0 ^ 2)
  · rw [if_pos hc]
    right
    exact ⟨_, _, _, _, rfl⟩
  · rw [if_neg hc]
    left
    rfl

/-- Claim C2 (confirmed): for `B > 1` the decimator returns, for every tile
`(i, j)` of the output grid and both depth components, the exact arithmetic
mean of the `B × B` tile whose top-left corner is `(B·i, B·j)` in (row,
column) index space — only indices inside the tile are touched, so remainder
rows/columns beyond `(h / B)·B`, `(w / B)·B` are never averaged — and the
glyph loop iterates a grid of shape `(h / B, w / B)`. -/
theorem C2_decimate (v : ℕ → ℕ → ℕ → ℝ) (h w B i j dep : ℕ)
    (hB : 1 < B) (hw : 1 ≤ w) (_hi : i < h / B) (hj : j < w / B)
    (hdep : dep < 2) :
    decimateOut w v B i j dep
      = (∑ r ∈ Finset.range B, ∑ c ∈ Finset.range B,
          v (B * i + r) (B * j + c) dep) / ((B : ℝ) * B)
    ∧ nrowsOf B h = h / B ∧ ncolsOf B w = w / B := by
  refine ⟨?_, if_pos hB, if_pos hB⟩
  unfold decimateOut
  rw [if_neg (by omega)]
  exact decimateTiles_mean v w B i j dep hj hdep

/-- Witness for `C2_decimate`: shape `4 × 4`, `B = 2`, tile `(1, 1)`,
depth 0. -/
theorem C2_decimate_witness :
    decimateOut 4 (fun i j k => (i : ℝ) + j + k) 2 1 1 0
      = (∑ r ∈ Finset.range 2, ∑ c ∈ Finset.range 2,
          (((2 * 1 + r : ℕ) : ℝ) + ((2 * 1 + c : ℕ) : ℝ) + ((0 : ℕ) : ℝ)))
        / (((2 : ℕ) : ℝ) * ((2 : ℕ) : ℝ))
    ∧ nrowsOf 2 4 = 4 / 2 ∧ ncolsOf 2 4 = 4 / 2 := by
  exact C2_decimate (fun i j k => (i : ℝ) + j + k) 4 4 2 1 1 0 (by norm_num)
    (by norm_num) (by norm_num) (by norm_num) (by norm_num)

/-- Claim C7 (confirmed): a tile emits its six glyph points exactly when the
pre-rescale vector length `√(dx² + dy²)` of its decimated delta exceeds the
minimum-length threshold `0.01 = 1/100`; consequently an all-zero vector
field emits no points at all, for any decimation factor. -/
theorem C7_threshold (fy fx : ℕ → ℕ → ℝ) (h w B : ℕ) (s : ℝ) (y x : ℕ) :
    (tilePoints fy fx w B s (1 / 100) y x ≠ [] ↔
      1 / 100 < Real.sqrt
        (deltaOf w fy fx B y x 1 ^ 2 + deltaOf w fy fx B y x 0 ^ 2))
    ∧ ((∀ i j, fy i j = 0) → (∀ i j, fx i j = 0) →
        quiverPoints fy fx h w B s (1 / 100) = []) := by
  constructor
  · simp only [tilePoints]
    by_cases hc : (1 : ℝ) / 100 < Real.sqrt
        (deltaOf w fy fx B y x 1 ^ 2 + deltaOf w fy fx B y x 0 ^ 2)
    · rw [if_pos hc]
      simp only [ne_eq, List.cons_ne_nil, not_false_eq_true, true_iff]
      exact hc
    · rw [if_neg hc]
      simp only [ne_eq, not_true_eq_false, false_iff, not_lt]
      exact le_of_not_lt hc
  · intro hy hx
    unfold quiverPoints
    apply flatMap_nil_of
    intro p
    have hz : ∀ k, deltaOf w fy fx B p.1 p.2 k = 0 := fun k =>
      deltaOf_zero w B p.1 p.2 k fy fx hy hx
    simp only [tilePoints, hz]
    norm_num [Real.sqrt_zero]

/-- Witness for `C7_threshold`: the all-zero `2 × 2` field with `B = 2`
produces an empty point list. -/
theorem C7_threshold_witness :
    quiverPoints (fun _ _ => 0) (fun _ _ => 0) 2 2 2 1 (1 / 100) = [] :=
  (C7_threshold (fun _ _ => 0) (fun _ _ => 0) 2 2 2 1 0 0).2
    (fun _ _ => rfl) (fun _ _ => rfl)

/-- Claim C4 (counterexample): a negative scale is accepted without any
error — with `scale = -1 ≤ 0` and decimation `2` on an all-zero
`1 × 1 × 2` frame the render request succeeds, so no `InvalidParameter`
error is raised for `scale ≤ 0`. -/
theorem C4_cex :
    okB (multiQuiverInit h5_colors (zeroFrame 1 1 2) none 2 (-1)) = true := by
  rw [multi_none_ok h5_colors (zeroFrame 1 1 2) 2 (-1) (by decide) (by norm_num)
    (by norm_num)]
  rfl

/-- Claim C4 (amended): with at least one valid channel shown, a decimation
factor `≤ 0` raises an error (the `math.log` domain error while computing the
pen width) and a scale equal to `0` raises a division error — both inside
child construction, after range normalization has already run — while a
negative scale raises no error at all and the request succeeds. -/
theorem C4_amended (f : Frame) (B : ℤ) (s : ℝ) (hd : 2 ≤ f.d) :
    (B ≤ 0 → multiQuiverInit h5_colors f none B s = .error .valueError)
    ∧ (1 ≤ B → s = 0 →
        multiQuiverInit h5_colors f none B s = .error .zeroDivisionError)
    ∧ (1 ≤ B → s ≠ 0 → okB (multiQuiverInit h5_colors f none B s) = true) := by
  have hdn : (normalizeFrame f).d = f.d := normalizeFrame_d f
  obtain ⟨k, hk⟩ : ∃ k, (normalizeFrame f).d / 2 = k + 1 :=
    ⟨(normalizeFrame f).d / 2 - 1, by omega⟩
  refine ⟨?_, ?_, ?_⟩
  · intro hB
    simp only [multiQuiverInit]
    rw [hk, List.range_succ_eq_map, List.map_cons, List.foldlM_cons]
    rw [mqStep_errVal h5_colors (normalizeFrame f) B s [] (Int.ofNat 0)
      (by decide) (by decide) (by simp only [Int.ofNat_eq_natCast]; omega) hB]
    rfl
  · intro hB hs
    simp only [multiQuiverInit]
    rw [hk, List.range_succ_eq_map, List.map_cons, List.foldlM_cons]
    rw [mqStep_errZero h5_colors (normalizeFrame f) B s [] (Int.ofNat 0)
      (by decide) (by decide) (by simp only [Int.ofNat_eq_natCast]; omega)
      hB hs]
    rfl
  · intro hB hs
    rw [multi_none_ok h5_colors f B s (by decide) hB hs]
    rfl

/-- Witness for `C4_amended`: decimation `0` on an all-zero `1 × 1 × 2`
frame raises the value error. -/
theorem C4_amended_witness :
    multiQuiverInit h5_colors (zeroFrame 1 1 2) none 0 1
      = .error .valueError :=
  (C4_amended (zeroFrame 1 1 2) 0 1 (by decide)).1 (by norm_num)

/-- Claim C5 (counterexample): a frame whose channel dimension is odd (here
`d = 3`) raises no error at all — the render request succeeds, contrary to
the claimed `InvalidShape` error. -/
theorem C5_cex :
    okB (multiQuiverInit h5_colors (zeroFrame 1 1 3) none 2 1) = true := by
  rw [multi_none_ok h5_colors (zeroFrame 1 1 3) 2 1 (by decide) (by norm_num)
    (by norm_num)]
  rfl

/-- Claim C5 (amended): a frame with an odd channel dimension raises no
error: the dangling last component plane is silently ignored and exactly
`d // 2` channel groups are produced under the default selection; the engine
is a pure function of its inputs, so no state can be corrupted for
subsequent calls. -/
theorem C5_amended (f : Frame) (B : ℤ) (s : ℝ) (hB : 1 ≤ B) (hs : s ≠ 0) :
    Except.map List.length (multiQuiverInit h5_colors f none B s)
      = .ok (f.d / 2) := by
  rw [multi_none_ok h5_colors f B s (by decide) hB hs]
  simp [Except.map, normalizeFrame_d]

/-- Witness for `C5_amended` on the odd-channel frame `1 × 1 × 3`. -/
theorem C5_amended_witness :
    Except.map List.length
        (multiQuiverInit h5_colors (zeroFrame 1 1 3) none 2 1) = .ok 1 := by
  have h := C5_amended (zeroFrame 1 1 3) 2 1 (by norm_num) (by norm_num)
  simpa [zeroFrame] using h

/-- Claim C6 (counterexample): a requested channel index outside `[0, C)` is
not always silently skipped.  On a `1 × 1 × 4` frame (`C = 2`), requesting
channel `-1` produces one glyph group (numpy wrap-around indexing), and
requesting channel `-3` raises an index error. -/
theorem C6_cex :
    Except.map List.length
        (multiQuiverInit h5_colors (zeroFrame 1 1 4) (some [-1]) 1 1) = .ok 1
    ∧ multiQuiverInit h5_colors (zeroFrame 1 1 4) (some [-3]) 1 1
        = .error .indexError := by
  constructor
  · simp only [multiQuiverInit, normalizeFrame_zero]
    rw [List.foldlM_cons]
    unfold mqStep
    rw [if_pos (by decide)]
    simp only [paletteColor, npLastIndex, zeroFrame, h5_colors,
      quiverInit_ok 1 1 (by norm_num) (by norm_num), exceptBind_ok,
      List.foldlM_nil]
    rfl
  · simp only [multiQuiverInit, normalizeFrame_zero]
    rfl

/-- Claim C6 (amended): a channel index `k ≥ C` is silently skipped — no
glyph group and no error, for any decimation and scale.  (Negative indices
are not skipped: by numpy indexing they wrap around when `k ≥ -C`, producing
a group, and raise an index error when `k < -C`, as `C6_cex` shows.) -/
theorem C6_amended (palette : List (List ℕ)) (f : Frame) (B : ℤ) (s : ℝ)
    (k : ℤ) (hk : ((f.d / 2 : ℕ) : ℤ) ≤ k) :
    multiQuiverInit palette f (some [k]) B s = .ok [] := by
  have hdn : (normalizeFrame f).d = f.d := normalizeFrame_d f
  simp only [multiQuiverInit]
  rw [List.foldlM_cons]
  have hstep : mqStep palette (normalizeFrame f) B s [] k = .ok [] := by
    unfold mqStep
    rw [if_neg (by omega)]
    rfl
  rw [hstep]
  rfl

/-- Witness for `C6_amended`: channel `5` of a `1 × 1 × 2` frame (`C = 1`)
is skipped. -/
theorem C6_amended_witness :
    multiQuiverInit h5_colors (zeroFrame 1 1 2) (some [5]) 1 1 = .ok [] :=
  C6_amended h5_colors (zeroFrame 1 1 2) 1 1 5 (by decide)

/-- Claim C9 (confirmed): for an in-range channel selection list the output
glyph groups appear in exactly the selection-list order — the result is the
selection list mapped through per-channel child construction — and each
group's color is the palette entry at index `channel mod palette_size`. -/
theorem C9_order (palette : List (List ℕ)) (f : Frame) (l : List ℤ) (B : ℤ)
    (s : ℝ) (hp : palette ≠ []) (hB : 1 ≤ B) (hs : s ≠ 0)
    (hl : ∀ ch ∈ l, 0 ≤ ch ∧ ch < ((f.d / 2 : ℕ) : ℤ)) :
    multiQuiverInit palette f (some l) B s
      = .ok (l.map (childOf palette (normalizeFrame f) B s))
    ∧ (l.map (childOf palette (normalizeFrame f) B s)).map QuiverOut.color
      = l.map fun ch => palette.getD ((ch % (palette.length : ℤ)).toNat) [] := by
  refine ⟨multi_some_ok palette f l B s hp hB hs hl, ?_⟩
  rw [List.map_map]
  rfl

/-- Witness for `C9_order`: selection `[1, 0]` on a `1 × 1 × 4` frame. -/
theorem C9_order_witness :
    multiQuiverInit h5_colors (zeroFrame 1 1 4) (some [1, 0]) 1 1
      = .ok ([1, 0].map
          (childOf h5_colors (normalizeFrame (zeroFrame 1 1 4)) 1 1))
    ∧ ([1, 0].map
        (childOf h5_colors (normalizeFrame (zeroFrame 1 1 4)) 1 1)).map
          QuiverOut.color
      = [1, 0].map fun ch =>
          h5_colors.getD ((ch % (h5_colors.length : ℤ)).toNat) [] :=
  C9_order h5_colors (zeroFrame 1 1 4) [1, 0] 1 1 (by decide) (by norm_num)
    (by norm_num) (by decide)

/-- Witness for `C10_structure` on an all-zero `2 × 2` field, `B = 1`,
tile `(1, 0)`. -/
theorem C10_structure_witness :
    quiverPoints (fun _ _ => 0) (fun _ _ => 0) 2 2 1 1 (1 / 100)
      = (rowMajor (nrowsOf 1 2) (ncolsOf 1 2)).flatMap
          (fun p => tilePoints (fun _ _ => 0) (fun _ _ => 0) 2 1 1 (1 / 100) p.1 p.2)
    ∧ (rowMajor (nrowsOf 1 2) (ncolsOf 1 2)).getD (1 * ncolsOf 1 2 + 0) (0, 0)
        = (1, 0)
    ∧ (tilePoints (fun _ _ => 0) (fun _ _ => 0) 2 1 1 (1 / 100) 1 0 = []
        ∨ ∃ t hd p1 p2,
            tilePoints (fun _ _ => 0) (fun _ _ => 0) 2 1 1 (1 / 100) 1 0
              = [t, hd, p1, hd, p2, hd]) :=
  C10_structure (fun _ _ => 0) (fun _ _ => 0) 2 2 1 1 (1 / 100) 1 0
    (by norm_num [nrowsOf]) (by norm_num [ncolsOf])

end
